import Mathlib

/-!
Verification of the OneNote incremental-sync repository.

Part 1 embeds the storage layer (src/app/storage/db_handler.py) and the
sync orchestrator (src/app/services/pipeline_service.py, run_pipeline) as a
pure state machine.  Timestamps are modelled as integers: the code stores
the remote ISO-8601 timestamp via datetime.isoformat and reads it back from
a TIMESTAMP WITH TIME ZONE column, a lossless round trip at microsecond
precision, so only the order structure matters.  The content processor is
passed to the orchestrator as an oracle: some chunks = process_page
returned chunks, none = process_page raised.  The remote fetch result is
likewise an input (the list of page dicts the fetcher returned).

Part 2 embeds the content processor (src/app/services/content_processor.py)
over a parsed document model: a page body is a list of block nodes (text,
table, image), mirroring the BeautifulSoup tree that process_page walks;
external collaborators (Bedrock summarization/description/embedding, image
download and S3 persistence, the langchain text splitter) are environment
oracles keyed by the exact argument the code passes them.
-/

namespace OneNoteSync

/-- One remote page dict as produced by the fetchers and consumed by
run_pipeline: id, title, lastModifiedDateTime (modelled as Int after
datetime.fromisoformat), sectionDisplayName. -/
structure RemotePage where
  id : String
  title : String
  lastModified : Int
  sectionDisplayName : String
deriving Repr

/-- One row of the onenote_pages_metadata table, minus its key. -/
structure PageMeta where
  last_modified : Int
  title : String
  section_name : String
deriving Repr, DecidableEq

/-- One Milvus row: the dict built at the end of ContentProcessor.process_page
and inserted by MilvusHandler.insert_chunks. -/
structure Chunk where
  vector : List Float
  page_id : String
  text_content : String
  page_title : String
  section_name : String
deriving Repr

/-- One row of the append-only sync log written by insert_sync_log. -/
structure SyncEvent where
  run_id : String
  page_id : String
  action : String
deriving Repr, DecidableEq

/-- The persistent state the pipeline reads and writes: the Postgres
metadata table (association list keyed by page_id, primary key), the
Milvus collection, and the sync log. -/
structure State where
  meta : List (String × PageMeta)
  vectors : List Chunk
  syncLog : List SyncEvent

/-- PostgresHandler.get_page_last_modified: SELECT last_modified_time WHERE
page_id = %s, returning the timestamp or None when the page is absent. -/
def lookupMeta (pid : String) : List (String × PageMeta) → Option PageMeta
  | [] => none
  | (k, v) :: rest => if k = pid then some v else lookupMeta pid rest

/-- PostgresHandler.upsert_page_metadata: INSERT ... ON CONFLICT (page_id)
DO UPDATE — replace the row in place when the key exists, insert otherwise. -/
def upsertMeta (pid : String) (m : PageMeta) : List (String × PageMeta) → List (String × PageMeta)
  | [] => [(pid, m)]
  | (k, v) :: rest => if k = pid then (pid, m) :: rest else (k, v) :: upsertMeta pid m rest

def State.get_page_last_modified (st : State) (pid : String) : Option Int :=
  (lookupMeta pid st.meta).map (fun m => m.last_modified)

def State.upsert_page_metadata (st : State) (pid : String) (t : Int)
    (title section_name : String) : State :=
  { st with meta := upsertMeta pid ⟨t, title, section_name⟩ st.meta }

/-- Modelled from the spec: PostgresHandler.get_all_page_ids is called by
run_pipeline but not defined under src/; spec section 4.3 gives the
MetadataStore operation get_all_ids() returning the set of stored ids. -/
def State.get_all_page_ids (st : State) : List String :=
  st.meta.map Prod.fst

/-- Removal of every row keyed pid from the metadata table (SQL DELETE
WHERE page_id matches; the key is primary, so at most one row matches). -/
def deleteMetaList (pid : String) : List (String × PageMeta) → List (String × PageMeta)
  | [] => []
  | (k, v) :: rest => if k = pid then deleteMetaList pid rest else (k, v) :: deleteMetaList pid rest

/-- Modelled from the spec: PostgresHandler.delete_page_metadata is called by
run_pipeline but not defined under src/; spec section 4.3 gives the
MetadataStore operation delete(page_id). -/
def State.delete_page_metadata (st : State) (pid : String) : State :=
  { st with meta := deleteMetaList pid st.meta }

/-- Modelled from the spec: PostgresHandler.insert_sync_log is called by
run_pipeline but not defined under src/; spec section 4.3 gives the
MetadataStore operation append_sync_event(run_id, page_id, action),
append-only. -/
def State.insert_sync_log (st : State) (runId pid action : String) : State :=
  { st with syncLog := st.syncLog ++ [⟨runId, pid, action⟩] }

/-- MilvusHandler.delete_vectors_by_page_id: delete every chunk whose
page_id field matches. -/
def State.delete_vectors_by_page_id (st : State) (pid : String) : State :=
  { st with vectors := st.vectors.filter (fun c => c.page_id ≠ pid) }

/-- MilvusHandler.insert_chunks: bulk append; the caller guards the empty
case (and insert_chunks itself also returns early on an empty list). -/
def State.insert_chunks (st : State) (cs : List Chunk) : State :=
  { st with vectors := st.vectors ++ cs }

/-- The dict run_pipeline returns. The message key is only present on the
early empty-fetch return, hence Option. -/
structure Report where
  status : String
  message : Option String
  new_pages_count : Nat
  new_pages_titles : List String
  updated_pages_count : Nat
  updated_pages_titles : List String
  deleted_pages_count : Nat
  deleted_pages_ids : List String
  skipped_pages_count : Nat
deriving Repr

/-- The process_stats accumulator of run_pipeline, without the deleted
bucket (which is filled only by the sweep after the loop). -/
structure Stats where
  newCount : Nat
  newTitles : List String
  updCount : Nat
  updTitles : List String
  skipped : Nat
deriving Repr

def Stats.init : Stats := ⟨0, [], 0, [], 0⟩

/-- The per-page loop of run_pipeline (pipeline_service.py lines 61-102).
proc is ContentProcessor.process_page: some chunks when it returns, none
when it raises.  A raise is not caught anywhere in run_pipeline (the
function body is a try/finally with no except clause), so the loop stops
and the exception propagates: result (none, state at the raise).  For each
page: absent metadata → CREATED (log, delete stale vectors, process,
insert chunks if non-empty, upsert metadata); present and remote timestamp
strictly greater → UPDATED (same sequence); otherwise skipped, no writes. -/
def processPages (proc : RemotePage → Option (List Chunk)) (runId : String) :
    List RemotePage → Stats → State → Option Stats × State
  | [], stats, st => (some stats, st)
  | p :: rest, stats, st =>
    match st.get_page_last_modified p.id with
    | none =>
      let stats' : Stats :=
        { stats with newCount := stats.newCount + 1, newTitles := stats.newTitles ++ [p.title] }
      let st₁ := (st.insert_sync_log runId p.id "CREATED").delete_vectors_by_page_id p.id
      match proc p with
      | none => (none, st₁)
      | some chunks =>
        let st₂ := if chunks.isEmpty then st₁ else st₁.insert_chunks chunks
        let st₃ := st₂.upsert_page_metadata p.id p.lastModified p.title p.sectionDisplayName
        processPages proc runId rest stats' st₃
    | some t =>
      if p.lastModified > t then
        let stats' : Stats :=
          { stats with updCount := stats.updCount + 1, updTitles := stats.updTitles ++ [p.title] }
        let st₁ := (st.insert_sync_log runId p.id "UPDATED").delete_vectors_by_page_id p.id
        match proc p with
        | none => (none, st₁)
        | some chunks =>
          let st₂ := if chunks.isEmpty then st₁ else st₁.insert_chunks chunks
          let st₃ := st₂.upsert_page_metadata p.id p.lastModified p.title p.sectionDisplayName
          processPages proc runId rest stats' st₃
      else
        processPages proc runId rest { stats with skipped := stats.skipped + 1 } st

/-- The deletion sweep (pipeline_service.py lines 104-120): for each id in
local_page_ids minus remote ids, log DELETED, delete its vectors, delete
its metadata row. -/
def sweepDeleted (runId : String) (ids : List String) (st : State) : State :=
  ids.foldl
    (fun acc pid =>
      (((acc.insert_sync_log runId pid "DELETED").delete_vectors_by_page_id pid).delete_page_metadata pid))
    st

/-- The early return of run_pipeline when the fetch yields no pages
(pipeline_service.py lines 40-49). -/
def emptyFetchReport : Report :=
  { status := "success", message := some "No pages found or fetching failed.",
    new_pages_count := 0, new_pages_titles := [],
    updated_pages_count := 0, updated_pages_titles := [],
    deleted_pages_count := 0, deleted_pages_ids := [],
    skipped_pages_count := 0 }

/-- run_pipeline (pipeline_service.py).  Handler construction, schema setup
(CREATE TABLE IF NOT EXISTS / create_collection_if_not_exists) and token
acquisition do not touch the modelled tables; the fetched page list and
process_page are inputs.  Result none means the run raised (per-page
failures are not caught); the returned State carries whatever writes had
already been committed. -/
def run_pipeline (proc : RemotePage → Option (List Chunk)) (runId : String)
    (all_pages : List RemotePage) (st : State) : Option Report × State :=
  if all_pages.isEmpty then
    (some emptyFetchReport, st)
  else
    let remote_page_ids := all_pages.map (fun p => p.id)
    match processPages proc runId all_pages Stats.init st with
    | (none, st') => (none, st')
    | (some stats, st') =>
      let local_page_ids := st'.get_all_page_ids.dedup
      let deleted_page_ids := local_page_ids.filter (fun i => i ∉ remote_page_ids)
      let st'' := sweepDeleted runId deleted_page_ids st'
      (some { status := "success", message := none,
              new_pages_count := stats.newCount, new_pages_titles := stats.newTitles,
              updated_pages_count := stats.updCount, updated_pages_titles := stats.updTitles,
              deleted_pages_count := deleted_page_ids.length,
              deleted_pages_ids := deleted_page_ids,
              skipped_pages_count := stats.skipped }, st'')

/-! Part 2: the content processor (src/app/services/content_processor.py). -/

/-- Boolean test that pat occurs at the head of s (lists of characters). -/
def listIsPrefix : List Char → List Char → Bool
  | _, [] => true
  | [], _ :: _ => false
  | c :: cs, p :: ps => c = p && listIsPrefix cs ps

/-- Boolean test that pat occurs somewhere in s, the Python in operator on
strings, spelled out over character lists so it is executable and provable. -/
def listHasSub (pat : List Char) : List Char → Bool
  | [] => listIsPrefix [] pat
  | c :: cs => listIsPrefix (c :: cs) pat || listHasSub pat cs

/-- Python s1 in s2 for strings. -/
def strIn (pat s : String) : Bool :=
  listHasSub pat.data s.data

/-- Python ASCII whitespace, the set str.strip removes. -/
def isSpaceChar (c : Char) : Bool :=
  c == ' ' || c == '\t' || c == '\n' || c == '\r' || c.toNat == 11 || c.toNat == 12

/-- Python str.strip (also the strip=True of get_text), spelled out over
character lists so it is executable and provable. -/
def pyStrip (s : String) : String :=
  String.mk (((s.data.dropWhile isSpaceChar).reverse.dropWhile isSpaceChar).reverse)

/-- One cell of an HTML table row as BeautifulSoup sees it: a th or td tag
with its extracted text. -/
structure Cell where
  isHeader : Bool
  text : String
deriving Repr, DecidableEq

/-- One tr element: its th/td cells in document order. -/
structure TableRow where
  cells : List Cell
deriving Repr, DecidableEq

/-- A table element: its tr rows in document order. -/
structure HtmlTable where
  rows : List TableRow
deriving Repr, DecidableEq

/-- The pipe-delimited row format used throughout _table_to_markdown. -/
def markdownRow (cells : List String) : String :=
  "| " ++ String.intercalate " | " cells ++ " |"

/-- ContentProcessor._table_to_markdown, as the list of lines it joins: if
the first row holds a header cell, its cell texts head the table; otherwise
a generic header is synthesized from the first row's td count (Feature and
Details for exactly two columns, else Column 1..N) and every row becomes
body.  Cell text extraction is get_text(strip=True), modelled by pyStrip. -/
def table_to_markdown_lines (t : HtmlTable) : List String :=
  match t.rows with
  | [] => []
  | r0 :: rest =>
    let first_row_is_header := r0.cells.any (fun c => c.isHeader)
    if first_row_is_header then
      let header_texts := r0.cells.map (fun c => pyStrip c.text)
      markdownRow header_texts ::
        markdownRow (List.replicate r0.cells.length "---") ::
          rest.map (fun r => markdownRow (r.cells.map (fun c => pyStrip c.text)))
    else
      let num_columns := (r0.cells.filter (fun c => ¬ c.isHeader)).length
      let generic_headers :=
        if num_columns = 2 then ["Feature", "Details"]
        else (List.range num_columns).map (fun i => "Column " ++ toString (i + 1))
      markdownRow generic_headers ::
        markdownRow (List.replicate num_columns "---") ::
          (r0 :: rest).map (fun r => markdownRow (r.cells.map (fun c => pyStrip c.text)))

/-- ContentProcessor._table_to_markdown: empty for a rowless table, else
the lines joined with newlines. -/
def table_to_markdown (t : HtmlTable) : String :=
  String.intercalate "\n" (table_to_markdown_lines t)

/-- Hex digit for the json string escaper. -/
def hexDigit (n : Nat) : Char :=
  if n < 10 then Char.ofNat (48 + n) else Char.ofNat (87 + n)

/-- Four-digit lowercase hex, as json.dumps emits in escapes. -/
def hex4 (n : Nat) : String :=
  String.mk [hexDigit (n / 4096 % 16), hexDigit (n / 256 % 16), hexDigit (n / 16 % 16),
    hexDigit (n % 16)]

/-- Escaping of one character inside a json.dumps string literal
(ensure_ascii default: non-ASCII becomes backslash-u escapes, astral
characters a surrogate pair). -/
def jsonEscapeChar (c : Char) : String :=
  if c = '\\' then "\\\\"
  else if c = '"' then "\\\""
  else if c = '\n' then "\\n"
  else if c = '\r' then "\\r"
  else if c = '\t' then "\\t"
  else if c.toNat = 8 then "\\b"
  else if c.toNat = 12 then "\\f"
  else if 32 ≤ c.toNat ∧ c.toNat ≤ 126 then String.singleton c
  else if c.toNat ≤ 65535 then "\\u" ++ hex4 c.toNat
  else
    let v := c.toNat - 65536
    "\\u" ++ hex4 (55296 + v / 1024) ++ "\\u" ++ hex4 (56320 + v % 1024)

/-- A json.dumps string literal. -/
def jsonString (s : String) : String :=
  "\"" ++ String.join (s.data.map jsonEscapeChar) ++ "\""

/-- json.dumps of the two-key table_data dict built in _process_table. -/
def jsonTableInfo (summary md : String) : String :=
  "\x7b\"summary\": " ++ jsonString summary ++ ", \"markdown_table\": " ++ jsonString md ++ "\x7d"

/-- json.dumps of the two-key image_data dict built in _process_image. -/
def jsonImageInfo (source descr : String) : String :=
  "\x7b\"source\": " ++ jsonString source ++ ", \"description\": " ++ jsonString descr ++ "\x7d"

/-- Outcome of the fetch-persist-describe sequence inside the try block of
_process_image for a given resolved src: ok carries the public S3 uri and
the model's description, fail covers any exception raised at any step
(download, raise_for_status, S3 upload, Bedrock call), which the except
clauses turn into an empty replacement. -/
inductive ImageOutcome where
  | ok (uri descr : String)
  | fail
deriving Repr

/-- The external collaborators the content processor calls, as oracles
keyed by the exact argument the code passes: summarize is the Bedrock
table-summary call on the markdown (none = the call raised), image the
image fetch/persist/describe sequence for a resolved src, split the
langchain RecursiveCharacterTextSplitter, embed the Bedrock embedding call
on one chunk (none = the call raised). -/
structure Env where
  summarize : String → Option String
  image : String → ImageOutcome
  split : String → List String
  embed : String → Option (List Float)

/-- ContentProcessor._process_table: markdown-render the table; empty
rendering is replaced by empty text; otherwise ask for a summary and emit
the TABLE_INFO json envelope; if the summary call raises, the except
clause returns empty text (the table content is dropped). -/
def process_table (env : Env) (t : HtmlTable) : String :=
  let markdown_table := table_to_markdown t
  if pyStrip markdown_table = "" then ""
  else
    match env.summarize markdown_table with
    | some summary =>
        "[TABLE_INFO]" ++ jsonTableInfo (pyStrip summary) (pyStrip markdown_table) ++ "[/TABLE_INFO]"
    | none => ""

/-- ContentProcessor._process_image: images without a src or whose src is
not a OneNote binary-resource endpoint are replaced by empty text; the
siteCollections path segment is rewritten to sites; then the whole
fetch/persist/describe sequence either yields the IMAGE_INFO json envelope
or, on any exception, empty text (the except clauses return ""). -/
def process_image (env : Env) (srcAttr : Option String) : String :=
  let src := srcAttr.getD ""
  if src = "" ∨ ¬ strIn "/onenote/resources/" src then ""
  else
    let src := if strIn "siteCollections" src then src.replace "siteCollections" "sites" else src
    match env.image src with
    | .ok uri descr => "[IMAGE_INFO]" ++ jsonImageInfo uri (pyStrip descr) ++ "[/IMAGE_INFO]"
    | .fail => ""

/-- One block node of the parsed page body: plain text, a table element,
or an img element with its src attribute. -/
inductive Node where
  | text (s : String)
  | table (t : HtmlTable)
  | image (src : Option String)

/-- The replacement text a node carries after the two replace_with loops
of process_page. -/
def processNode (env : Env) : Node → String
  | .text s => s
  | .table t => process_table env t
  | .image src => process_image env src

/-- soup.get_text(separator=newline, strip=True) over the transformed
tree: each text fragment stripped, empty fragments dropped, the rest
joined with newlines. -/
def extract_text (env : Env) (nodes : List Node) : String :=
  String.intercalate "\n" ((nodes.map (fun n => pyStrip (processNode env n))).filter (fun s => s ≠ ""))

/-- The page dict as process_page reads it: id, html_content (here already
parsed into block nodes; a falsy html string corresponds to an empty node
list), title, sectionDisplayName. -/
structure PageData where
  id : Option String
  html_content : List Node
  title : String
  sectionDisplayName : String

/-- ContentProcessor._embed_chunks: one embedding call per chunk; a raised
call is caught and contributes an empty vector placeholder. -/
def embed_chunks (env : Env) (chunks : List String) : List (List Float) :=
  chunks.map (fun c => (env.embed c).getD [])

/-- ContentProcessor._chunk_text: empty text yields no chunks, otherwise
the splitter runs. -/
def chunk_text (env : Env) (text : String) : List String :=
  if text = "" then [] else env.split text

/-- ContentProcessor.process_page: guard on falsy id or falsy html; replace
tables and images; extract clean text; chunk; embed; keep only the chunks
whose embedding succeeded (non-empty vector), packaging them with page id,
title and section name. -/
def process_page (env : Env) (pd : PageData) : List Chunk :=
  match pd.id with
  | none => []
  | some page_id =>
    if page_id = "" ∨ pd.html_content.isEmpty then []
    else
      let clean_text := extract_text env pd.html_content
      let text_chunks := chunk_text env clean_text
      let chunk_embeddings := embed_chunks env text_chunks
      (text_chunks.zip chunk_embeddings).filterMap (fun tc =>
        if tc.2.isEmpty then none
        else some { vector := tc.2, page_id := page_id, text_content := tc.1,
                    page_title := pd.title, section_name := pd.sectionDisplayName })

/-! Concrete fixtures for witnesses and counterexamples. -/

/-- A remote page whose stored timestamp (5) is older than its remote one (10). -/
def pUpd : RemotePage := ⟨"p1", "T", 10, "S"⟩

/-- The stale stored metadata of pUpd. -/
def mOld : PageMeta := ⟨5, "T", "S"⟩

/-- A previously stored chunk of pUpd. -/
def cOld : Chunk := ⟨[], "p1", "old text", "T", "S"⟩

/-- Store state holding pUpd's stale metadata and one old chunk. -/
def stUpd : State := ⟨[("p1", mOld)], [cOld], []⟩

/-- A content pipeline that raises on every page. -/
def procFail : RemotePage → Option (List Chunk) := fun _ => none

/-- A content pipeline that returns zero chunks on every page. -/
def procEmpty : RemotePage → Option (List Chunk) := fun _ => some []

/-- Metadata of a page that no longer exists remotely. -/
def mX : PageMeta := ⟨3, "X title", "XS"⟩

/-- A stored chunk of the vanished page. -/
def cX : Chunk := ⟨[], "X", "x text", "X title", "XS"⟩

/-- Store state holding only the vanished page X. -/
def stX : State := ⟨[("X", mX)], [cX], []⟩

/-- A page never seen before. -/
def pNew : RemotePage := ⟨"n1", "N", 7, "Sec"⟩

/-- Empty store state. -/
def stEmpty : State := ⟨[], [], []⟩

/-- Report of the first run over [pNew] from the empty store. -/
def rptNew : Report := ⟨"success", none, 1, ["N"], 0, [], 0, [], 0⟩

/-- Store state after that first run. -/
def stNew : State := ⟨[("n1", ⟨7, "N", "Sec"⟩)], [], [⟨"r", "n1", "CREATED"⟩]⟩

/-- An environment in which every external call fails. -/
def envFail : Env := ⟨fun _ => none, fun _ => ImageOutcome.fail, fun s => [s], fun _ => none⟩

/-- A OneNote binary-resource image url. -/
def imgSrc : String := "https://graph.microsoft.com/v1.0/users/u/onenote/resources/abc/content"

/-- A headerless one-row, two-column table. -/
def tbl2 : HtmlTable := ⟨[⟨[⟨false, "a"⟩, ⟨false, "b"⟩]⟩]⟩

/-- A headerless row of three data cells. -/
def row3 : TableRow := ⟨[⟨false, "x"⟩, ⟨false, "y"⟩, ⟨false, "z"⟩]⟩

/-- A headerless one-row, three-column table. -/
def tbl3 : HtmlTable := ⟨[row3]⟩

/-- Report of a run over [pNew] from stX: pNew created, X swept as deleted. -/
def rptX : Report := ⟨"success", none, 1, ["N"], 0, [], 1, ["X"], 0⟩

/-- A remote page whose stored timestamp equals its remote one. -/
def pSkip : RemotePage := ⟨"s1", "T", 5, "S"⟩

/-- Store state holding pSkip's metadata at the same timestamp. -/
def stSkip : State := ⟨[("s1", ⟨5, "T", "S"⟩)], [], []⟩

/-! Lemmas about the metadata association list and chunk filters. -/

theorem lookupMeta_upsertMeta_self (pid : String) (m : PageMeta) (l : List (String × PageMeta)) :
    lookupMeta pid (upsertMeta pid m l) = some m := by
  induction l with
  | nil => simp [upsertMeta, lookupMeta]
  | cons kv rest ih =>
    obtain ⟨k, v⟩ := kv
    by_cases h : k = pid
    · simp [upsertMeta, lookupMeta, h]
    · simp [upsertMeta, lookupMeta, h, ih]

theorem lookupMeta_upsertMeta_ne (pid k : String) (m : PageMeta) (l : List (String × PageMeta))
    (h : pid ≠ k) : lookupMeta pid (upsertMeta k m l) = lookupMeta pid l := by
  induction l with
  | nil => simp [upsertMeta, lookupMeta, Ne.symm h]
  | cons kv rest ih =>
    obtain ⟨k', v⟩ := kv
    by_cases h' : k' = k
    · subst h'
      simp [upsertMeta, lookupMeta, Ne.symm h]
    · simp [upsertMeta, lookupMeta, h', ih]

theorem lookupMeta_deleteMetaList_self (pid : String) (l : List (String × PageMeta)) :
    lookupMeta pid (deleteMetaList pid l) = none := by
  induction l with
  | nil => simp [deleteMetaList, lookupMeta]
  | cons kv rest ih =>
    obtain ⟨k, v⟩ := kv
    by_cases h : k = pid
    · simp [deleteMetaList, h, ih]
    · simp [deleteMetaList, lookupMeta, h, ih]

theorem lookupMeta_deleteMetaList_ne (pid k : String) (l : List (String × PageMeta))
    (h : pid ≠ k) : lookupMeta pid (deleteMetaList k l) = lookupMeta pid l := by
  induction l with
  | nil => simp [deleteMetaList]
  | cons kv rest ih =>
    obtain ⟨k', v⟩ := kv
    by_cases h' : k' = k
    · subst h'
      simp [deleteMetaList, lookupMeta, Ne.symm h, ih]
    · by_cases h'' : k' = pid
      · simp [deleteMetaList, lookupMeta, h', h'', h]
      · simp [deleteMetaList, lookupMeta, h', h'', ih]

theorem lookupMeta_deleteMetaList_none (pid k : String) (l : List (String × PageMeta))
    (h : lookupMeta pid l = none) : lookupMeta pid (deleteMetaList k l) = none := by
  induction l with
  | nil => simp [deleteMetaList, lookupMeta]
  | cons kv rest ih =>
    obtain ⟨k', v⟩ := kv
    by_cases hk : k' = pid
    · simp [lookupMeta, hk] at h
    · rw [lookupMeta] at h
      simp only [hk, if_false] at h
      by_cases hq : k' = k
      · simp [deleteMetaList, hq, ih h]
      · simp [deleteMetaList, lookupMeta, hq, hk, ih h]

theorem lookupMeta_some_mem (pid : String) (l : List (String × PageMeta)) (m : PageMeta)
    (h : lookupMeta pid l = some m) : pid ∈ l.map Prod.fst := by
  induction l with
  | nil => simp [lookupMeta] at h
  | cons kv rest ih =>
    obtain ⟨k, v⟩ := kv
    by_cases hk : k = pid
    · simp [hk]
    · rw [lookupMeta] at h
      simp only [hk, if_false] at h
      simp [ih h]

theorem lookupMeta_ne_none_of_mem (pid : String) (l : List (String × PageMeta))
    (h : pid ∈ l.map Prod.fst) : lookupMeta pid l ≠ none := by
  induction l with
  | nil => simp at h
  | cons kv rest ih =>
    obtain ⟨k, v⟩ := kv
    by_cases hk : k = pid
    · simp [lookupMeta, hk]
    · simp only [List.map_cons, List.mem_cons] at h
      rcases h with h | h

      · exact absurd h.symm hk
      · simp [lookupMeta, hk, ih h]

theorem filter_filter_nil {α : Type} (p q : α → Bool) (l : List α) (h : l.filter p = []) :
    (l.filter q).filter p = [] := by
  rw [List.filter_eq_nil_iff] at h ⊢
  exact fun a ha => h a (List.mem_of_mem_filter ha)

theorem vecFor_delete_self (pid : String) (l : List Chunk) :
    ((l.filter fun c => c.page_id ≠ pid).filter fun c => c.page_id = pid) = [] := by
  rw [List.filter_eq_nil_iff]
  intro c hc
  have hne := List.of_mem_filter hc
  simp at hne ⊢
  exact hne

/-! Projection lemmas for the store operations. -/

theorem meta_insert_sync_log (st : State) (runId pid action : String) :
    (st.insert_sync_log runId pid action).meta = st.meta := rfl

theorem meta_delete_vectors (st : State) (pid : String) :
    (st.delete_vectors_by_page_id pid).meta = st.meta := rfl

theorem meta_insert_chunks (st : State) (cs : List Chunk) :
    (st.insert_chunks cs).meta = st.meta := rfl

theorem meta_upsert (st : State) (pid : String) (t : Int) (ttl sec : String) :
    (st.upsert_page_metadata pid t ttl sec).meta = upsertMeta pid ⟨t, ttl, sec⟩ st.meta := rfl

theorem meta_delete_page (st : State) (pid : String) :
    (st.delete_page_metadata pid).meta = deleteMetaList pid st.meta := rfl

theorem vectors_insert_sync_log (st : State) (runId pid action : String) :
    (st.insert_sync_log runId pid action).vectors = st.vectors := rfl

theorem vectors_delete_vectors (st : State) (pid : String) :
    (st.delete_vectors_by_page_id pid).vectors = st.vectors.filter (fun c => c.page_id ≠ pid) := rfl

theorem vectors_insert_chunks (st : State) (cs : List Chunk) :
    (st.insert_chunks cs).vectors = st.vectors ++ cs := rfl

theorem vectors_upsert (st : State) (pid : String) (t : Int) (ttl sec : String) :
    (st.upsert_page_metadata pid t ttl sec).vectors = st.vectors := rfl

theorem vectors_delete_page (st : State) (pid : String) :
    (st.delete_page_metadata pid).vectors = st.vectors := rfl

theorem get_last_modified_eq (st : State) (pid : String) :
    st.get_page_last_modified pid = (lookupMeta pid st.meta).map (fun m => m.last_modified) := rfl

theorem insert_chunks_if (st₁ : State) (chunks : List Chunk) :
    (if chunks.isEmpty then st₁ else st₁.insert_chunks chunks) = st₁.insert_chunks chunks := by
  by_cases h : chunks.isEmpty
  · have hc : chunks = [] := List.isEmpty_iff.mp h
    subst hc
    simp [State.insert_chunks]
  · simp [h]

/-! Step equations for the per-page loop. -/

theorem processPages_nil (proc : RemotePage → Option (List Chunk)) (runId : String)
    (stats : Stats) (st : State) : processPages proc runId [] stats st = (some stats, st) := rfl

theorem processPages_cons_new_fail (proc : RemotePage → Option (List Chunk)) (runId : String)
    (p : RemotePage) (rest : List RemotePage) (stats : Stats) (st : State)
    (hl : st.get_page_last_modified p.id = none) (hp : proc p = none) :
    processPages proc runId (p :: rest) stats st =
      (none, (st.insert_sync_log runId p.id "CREATED").delete_vectors_by_page_id p.id) := by
  simp [processPages, hl, hp]

theorem processPages_cons_new (proc : RemotePage → Option (List Chunk)) (runId : String)
    (p : RemotePage) (rest : List RemotePage) (stats : Stats) (st : State) (chunks : List Chunk)
    (hl : st.get_page_last_modified p.id = none) (hp : proc p = some chunks) :
    processPages proc runId (p :: rest) stats st =
      processPages proc runId rest
        { stats with newCount := stats.newCount + 1, newTitles := stats.newTitles ++ [p.title] }
        ((((st.insert_sync_log runId p.id "CREATED").delete_vectors_by_page_id
            p.id).insert_chunks chunks).upsert_page_metadata
          p.id p.lastModified p.title p.sectionDisplayName) := by
  simp [processPages, hl, hp, insert_chunks_if]

theorem processPages_cons_upd_fail (proc : RemotePage → Option (List Chunk)) (runId : String)
    (p : RemotePage) (rest : List RemotePage) (stats : Stats) (st : State) (t : Int)
    (hl : st.get_page_last_modified p.id = some t) (ht : p.lastModified > t)
    (hp : proc p = none) :
    processPages proc runId (p :: rest) stats st =
      (none, (st.insert_sync_log runId p.id "UPDATED").delete_vectors_by_page_id p.id) := by
  simp [processPages, hl, ht, hp]

theorem processPages_cons_upd (proc : RemotePage → Option (List Chunk)) (runId : String)
    (p : RemotePage) (rest : List RemotePage) (stats : Stats) (st : State) (t : Int)
    (chunks : List Chunk) (hl : st.get_page_last_modified p.id = some t)
    (ht : p.lastModified > t) (hp : proc p = some chunks) :
    processPages proc runId (p :: rest) stats st =
      processPages proc runId rest
        { stats with updCount := stats.updCount + 1, updTitles := stats.updTitles ++ [p.title] }
        ((((st.insert_sync_log runId p.id "UPDATED").delete_vectors_by_page_id
            p.id).insert_chunks chunks).upsert_page_metadata
          p.id p.lastModified p.title p.sectionDisplayName) := by
  simp [processPages, hl, ht, hp, insert_chunks_if]

theorem processPages_cons_skip (proc : RemotePage → Option (List Chunk)) (runId : String)
    (p : RemotePage) (rest : List RemotePage) (stats : Stats) (st : State) (t : Int)
    (hl : st.get_page_last_modified p.id = some t) (ht : ¬ p.lastModified > t) :
    processPages proc runId (p :: rest) stats st =
      processPages proc runId rest { stats with skipped := stats.skipped + 1 } st := by
  simp [processPages, hl, ht]

/-! Invariants of the per-page loop. -/

theorem processPages_lookup_mono (proc : RemotePage → Option (List Chunk)) (runId pid : String) :
    ∀ (pages : List RemotePage) (stats : Stats) (st : State) (stats' : Stats) (st' : State)
      (m : PageMeta),
      processPages proc runId pages stats st = (some stats', st') →
      lookupMeta pid st.meta = some m →
      ∃ m', lookupMeta pid st'.meta = some m' ∧ m.last_modified ≤ m'.last_modified := by
  intro pages
  induction pages with
  | nil =>
    intro stats st stats' st' m h hm
    rw [processPages_nil] at h
    cases h
    exact ⟨m, hm, le_refl _⟩
  | cons p rest ih =>
    intro stats st stats' st' m h hm
    cases hl : st.get_page_last_modified p.id with
    | none =>
      cases hp : proc p with
      | none =>
        rw [processPages_cons_new_fail proc runId p rest stats st hl hp] at h
        simp at h
      | some chunks =>
        rw [processPages_cons_new proc runId p rest stats st chunks hl hp] at h
        by_cases hpid : pid = p.id
        · exfalso
          subst hpid
          rw [get_last_modified_eq, hm] at hl
          simp at hl
        · refine ih _ _ _ _ _ h ?_
          rw [meta_upsert, meta_insert_chunks, meta_delete_vectors, meta_insert_sync_log,
            lookupMeta_upsertMeta_ne pid p.id _ _ hpid]
          exact hm
    | some t =>
      by_cases ht : p.lastModified > t
      · cases hp : proc p with
        | none =>
          rw [processPages_cons_upd_fail proc runId p rest stats st t hl ht hp] at h
          simp at h
        | some chunks =>
          rw [processPages_cons_upd proc runId p rest stats st t chunks hl ht hp] at h
          by_cases hpid : pid = p.id
          · subst hpid
            rw [get_last_modified_eq, hm] at hl
            simp at hl
            have hm' : lookupMeta p.id
                ((((st.insert_sync_log runId p.id "UPDATED").delete_vectors_by_page_id
                  p.id).insert_chunks chunks).upsert_page_metadata
                  p.id p.lastModified p.title p.sectionDisplayName).meta =
                some ⟨p.lastModified, p.title, p.sectionDisplayName⟩ := by
              rw [meta_upsert, meta_insert_chunks, meta_delete_vectors, meta_insert_sync_log]
              exact lookupMeta_upsertMeta_self _ _ _
            obtain ⟨m', h1, h2⟩ := ih _ _ _ _ _ h hm'
            refine ⟨m', h1, ?_⟩
            have h2' : p.lastModified ≤ m'.last_modified := h2
            omega
          · refine ih _ _ _ _ _ h ?_
            rw [meta_upsert, meta_insert_chunks, meta_delete_vectors, meta_insert_sync_log,
              lookupMeta_upsertMeta_ne pid p.id _ _ hpid]
            exact hm
      · rw [processPages_cons_skip proc runId p rest stats st t hl ht] at h
        exact ih _ _ _ _ _ h hm

theorem processPages_lookup_not_mem (proc : RemotePage → Option (List Chunk)) (runId pid : String) :
    ∀ (pages : List RemotePage) (stats : Stats) (st : State) (stats' : Stats) (st' : State),
      processPages proc runId pages stats st = (some stats', st') →
      pid ∉ pages.map (fun p => p.id) →
      lookupMeta pid st'.meta = lookupMeta pid st.meta := by
  intro pages
  induction pages with
  | nil =>
    intro stats st stats' st' h _
    rw [processPages_nil] at h
    cases h
    rfl
  | cons p rest ih =>
    intro stats st stats' st' h hmem
    simp only [List.map_cons, List.mem_cons, not_or] at hmem
    obtain ⟨hpid, hrest⟩ := hmem
    cases hl : st.get_page_last_modified p.id with
    | none =>
      cases hp : proc p with
      | none =>
        rw [processPages_cons_new_fail proc runId p rest stats st hl hp] at h
        simp at h
      | some chunks =>
        rw [processPages_cons_new proc runId p rest stats st chunks hl hp] at h
        rw [ih _ _ _ _ h hrest, meta_upsert, meta_insert_chunks, meta_delete_vectors,
          meta_insert_sync_log, lookupMeta_upsertMeta_ne pid p.id _ _ hpid]
    | some t =>
      by_cases ht : p.lastModified > t
      · cases hp : proc p with
        | none =>
          rw [processPages_cons_upd_fail proc runId p rest stats st t hl ht hp] at h
          simp at h
        | some chunks =>
          rw [processPages_cons_upd proc runId p rest stats st t chunks hl ht hp] at h
          rw [ih _ _ _ _ h hrest, meta_upsert, meta_insert_chunks, meta_delete_vectors,
            meta_insert_sync_log, lookupMeta_upsertMeta_ne pid p.id _ _ hpid]
      · rw [processPages_cons_skip proc runId p rest stats st t hl ht] at h
        exact ih _ _ _ _ h hrest

theorem processPages_lookup_of_mem (proc : RemotePage → Option (List Chunk)) (runId : String) :
    ∀ (pages : List RemotePage) (stats : Stats) (st : State) (stats' : Stats) (st' : State)
      (p : RemotePage),
      processPages proc runId pages stats st = (some stats', st') →
      p ∈ pages →
      ∃ m', lookupMeta p.id st'.meta = some m' ∧ p.lastModified ≤ m'.last_modified := by
  intro pages
  induction pages with
  | nil =>
    intro stats st stats' st' p _ hmem
    simp at hmem
  | cons q rest ih =>
    intro stats st stats' st' p h hmem
    rcases List.mem_cons.mp hmem with hpq | hmem'
    · subst hpq
      cases hl : st.get_page_last_modified p.id with
      | none =>
        cases hp : proc p with
        | none =>
          rw [processPages_cons_new_fail proc runId p rest stats st hl hp] at h
          simp at h
        | some chunks =>
          rw [processPages_cons_new proc runId p rest stats st chunks hl hp] at h
          have hm' : lookupMeta p.id
              ((((st.insert_sync_log runId p.id "CREATED").delete_vectors_by_page_id
                p.id).insert_chunks chunks).upsert_page_metadata
                p.id p.lastModified p.title p.sectionDisplayName).meta =
              some ⟨p.lastModified, p.title, p.sectionDisplayName⟩ := by
            rw [meta_upsert, meta_insert_chunks, meta_delete_vectors, meta_insert_sync_log]
            exact lookupMeta_upsertMeta_self _ _ _
          obtain ⟨m', h1, h2⟩ := processPages_lookup_mono proc runId p.id rest _ _ _ _ _ h hm'
          have h2' : p.lastModified ≤ m'.last_modified := h2
          exact ⟨m', h1, h2'⟩
      | some t =>
        by_cases ht : p.lastModified > t
        · cases hp : proc p with
          | none =>
            rw [processPages_cons_upd_fail proc runId p rest stats st t hl ht hp] at h
            simp at h
          | some chunks =>
            rw [processPages_cons_upd proc runId p rest stats st t chunks hl ht hp] at h
            have hm' : lookupMeta p.id
                ((((st.insert_sync_log runId p.id "UPDATED").delete_vectors_by_page_id
                  p.id).insert_chunks chunks).upsert_page_metadata
                  p.id p.lastModified p.title p.sectionDisplayName).meta =
                some ⟨p.lastModified, p.title, p.sectionDisplayName⟩ := by
              rw [meta_upsert, meta_insert_chunks, meta_delete_vectors, meta_insert_sync_log]
              exact lookupMeta_upsertMeta_self _ _ _
            obtain ⟨m', h1, h2⟩ := processPages_lookup_mono proc runId p.id rest _ _ _ _ _ h hm'
            have h2' : p.lastModified ≤ m'.last_modified := h2
            exact ⟨m', h1, h2'⟩
        · rw [processPages_cons_skip proc runId p rest stats st t hl ht] at h
          have hex : ∃ m0, lookupMeta p.id st.meta = some m0 ∧ m0.last_modified = t := by
            rw [get_last_modified_eq] at hl
            cases hlk : lookupMeta p.id st.meta with
            | none => rw [hlk] at hl; simp at hl
            | some m0 =>
              rw [hlk] at hl
              simp at hl
              exact ⟨m0, rfl, hl⟩
          obtain ⟨m0, hm0, hm0t⟩ := hex
          obtain ⟨m', h1, h2⟩ := processPages_lookup_mono proc runId p.id rest _ _ _ _ _ h hm0
          exact ⟨m', h1, by omega⟩
    · cases hl : st.get_page_last_modified q.id with
      | none =>
        cases hp : proc q with
        | none =>
          rw [processPages_cons_new_fail proc runId q rest stats st hl hp] at h
          simp at h
        | some chunks =>
          rw [processPages_cons_new proc runId q rest stats st chunks hl hp] at h
          exact ih _ _ _ _ _ h hmem'
      | some t =>
        by_cases ht : q.lastModified > t
        · cases hp : proc q with
          | none =>
            rw [processPages_cons_upd_fail proc runId q rest stats st t hl ht hp] at h
            simp at h
          | some chunks =>
            rw [processPages_cons_upd proc runId q rest stats st t chunks hl ht hp] at h
            exact ih _ _ _ _ _ h hmem'
        · rw [processPages_cons_skip proc runId q rest stats st t hl ht] at h
          exact ih _ _ _ _ _ h hmem'

theorem processPages_stats_ok (proc : RemotePage → Option (List Chunk)) (runId : String) :
    ∀ (pages : List RemotePage) (stats : Stats) (st : State) (stats' : Stats) (st' : State),
      processPages proc runId pages stats st = (some stats', st') →
      stats.newCount = stats.newTitles.length →
      stats.updCount = stats.updTitles.length →
      stats'.newCount = stats'.newTitles.length ∧ stats'.updCount = stats'.updTitles.length := by
  intro pages
  induction pages with
  | nil =>
    intro stats st stats' st' h h1 h2
    rw [processPages_nil] at h
    cases h
    exact ⟨h1, h2⟩
  | cons p rest ih =>
    intro stats st stats' st' h h1 h2
    cases hl : st.get_page_last_modified p.id with
    | none =>
      cases hp : proc p with
      | none =>
        rw [processPages_cons_new_fail proc runId p rest stats st hl hp] at h
        simp at h
      | some chunks =>
        rw [processPages_cons_new proc runId p rest stats st chunks hl hp] at h
        refine ih _ _ _ _ h ?_ ?_
        · simp [h1]
        · simp [h2]
    | some t =>
      by_cases ht : p.lastModified > t
      · cases hp : proc p with
        | none =>
          rw [processPages_cons_upd_fail proc runId p rest stats st t hl ht hp] at h
          simp at h
        | some chunks =>
          rw [processPages_cons_upd proc runId p rest stats st t chunks hl ht hp] at h
          refine ih _ _ _ _ h ?_ ?_
          · simp [h1]
          · simp [h2]
      · rw [processPages_cons_skip proc runId p rest stats st t hl ht] at h
        exact ih _ _ _ _ h h1 h2

theorem processPages_all_skip (proc : RemotePage → Option (List Chunk)) (runId : String) :
    ∀ (pages : List RemotePage) (stats : Stats) (st : State),
      (∀ p ∈ pages, ∃ t, st.get_page_last_modified p.id = some t ∧ p.lastModified ≤ t) →
      processPages proc runId pages stats st =
        (some { stats with skipped := stats.skipped + pages.length }, st) := by
  intro pages
  induction pages with
  | nil =>
    intro stats st _
    rfl
  | cons p rest ih =>
    intro stats st hall
    obtain ⟨t, hl, hle⟩ := hall p (List.mem_cons_self p rest)
    rw [processPages_cons_skip proc runId p rest stats st t hl (by omega)]
    rw [ih _ _ (fun q hq => hall q (List.mem_cons_of_mem p hq))]
    have harith : stats.skipped + 1 + rest.length = stats.skipped + (p :: rest).length := by
      simp [List.length_cons]
      omega
    simp [harith]

/-! Properties of the deletion sweep. -/

theorem sweepDeleted_nil (runId : String) (st : State) : sweepDeleted runId [] st = st := rfl

theorem sweepDeleted_cons (runId pid : String) (ids : List String) (st : State) :
    sweepDeleted runId (pid :: ids) st =
      sweepDeleted runId ids
        (((st.insert_sync_log runId pid "DELETED").delete_vectors_by_page_id
          pid).delete_page_metadata pid) := rfl

theorem sweepDeleted_lookup_none (runId pid : String) :
    ∀ (ids : List String) (st : State), lookupMeta pid st.meta = none →
      lookupMeta pid (sweepDeleted runId ids st).meta = none := by
  intro ids
  induction ids with
  | nil =>
    intro st h
    rw [sweepDeleted_nil]
    exact h
  | cons k ids ih =>
    intro st h
    rw [sweepDeleted_cons]
    apply ih
    rw [meta_delete_page, meta_delete_vectors, meta_insert_sync_log]
    exact lookupMeta_deleteMetaList_none pid k _ h

theorem sweepDeleted_lookup_mem (runId pid : String) :
    ∀ (ids : List String) (st : State), pid ∈ ids →
      lookupMeta pid (sweepDeleted runId ids st).meta = none := by
  intro ids
  induction ids with
  | nil =>
    intro st h
    simp at h
  | cons k ids ih =>
    intro st hmem
    rw [sweepDeleted_cons]
    by_cases hk : pid = k
    · subst hk
      apply sweepDeleted_lookup_none
      rw [meta_delete_page, meta_delete_vectors, meta_insert_sync_log]
      exact lookupMeta_deleteMetaList_self _ _
    · rcases List.mem_cons.mp hmem with h | h
      · exact absurd h hk
      · exact ih _ h

theorem sweepDeleted_lookup_not_mem (runId pid : String) :
    ∀ (ids : List String) (st : State), pid ∉ ids →
      lookupMeta pid (sweepDeleted runId ids st).meta = lookupMeta pid st.meta := by
  intro ids
  induction ids with
  | nil =>
    intro st _
    rfl
  | cons k ids ih =>
    intro st hmem
    simp only [List.mem_cons, not_or] at hmem
    obtain ⟨hk, hmem'⟩ := hmem
    rw [sweepDeleted_cons, ih _ hmem', meta_delete_page, meta_delete_vectors,
      meta_insert_sync_log]
    exact lookupMeta_deleteMetaList_ne pid k _ hk

theorem sweepDeleted_vec_none (runId pid : String) :
    ∀ (ids : List String) (st : State),
      st.vectors.filter (fun c => c.page_id = pid) = [] →
      (sweepDeleted runId ids st).vectors.filter (fun c => c.page_id = pid) = [] := by
  intro ids
  induction ids with
  | nil =>
    intro st h
    rw [sweepDeleted_nil]
    exact h
  | cons k ids ih =>
    intro st h
    rw [sweepDeleted_cons]
    apply ih
    rw [vectors_delete_page, vectors_delete_vectors, vectors_insert_sync_log]
    exact filter_filter_nil _ _ _ h

theorem sweepDeleted_vec_mem (runId pid : String) :
    ∀ (ids : List String) (st : State), pid ∈ ids →
      (sweepDeleted runId ids st).vectors.filter (fun c => c.page_id = pid) = [] := by
  intro ids
  induction ids with
  | nil =>
    intro st h
    simp at h
  | cons k ids ih =>
    intro st hmem
    rw [sweepDeleted_cons]
    by_cases hk : pid = k
    · subst hk
      apply sweepDeleted_vec_none
      rw [vectors_delete_page, vectors_delete_vectors, vectors_insert_sync_log]
      exact vecFor_delete_self _ _
    · rcases List.mem_cons.mp hmem with h | h
      · exact absurd h hk
      · exact ih _ h

/-- Unfolding of run_pipeline for a non-empty fetched page list. -/
theorem run_pipeline_cons (proc : RemotePage → Option (List Chunk)) (runId : String)
    (p : RemotePage) (rest : List RemotePage) (st : State) :
    run_pipeline proc runId (p :: rest) st =
      match processPages proc runId (p :: rest) Stats.init st with
      | (none, st') => (none, st')
      | (some stats, st') =>
        let deleted_page_ids :=
          (st'.get_all_page_ids.dedup).filter (fun i => i ∉ (p :: rest).map (fun q => q.id))
        (some { status := "success", message := none,
                new_pages_count := stats.newCount, new_pages_titles := stats.newTitles,
                updated_pages_count := stats.updCount, updated_pages_titles := stats.updTitles,
                deleted_pages_count := deleted_page_ids.length,
                deleted_pages_ids := deleted_page_ids,
                skipped_pages_count := stats.skipped }, sweepDeleted runId deleted_page_ids st') := rfl

/-- Unfolding of run_pipeline when the loop raised on some page. -/
theorem run_pipeline_cons_fail (proc : RemotePage → Option (List Chunk)) (runId : String)
    (p : RemotePage) (rest : List RemotePage) (st : State) (st' : State)
    (hloop : processPages proc runId (p :: rest) Stats.init st = (none, st')) :
    run_pipeline proc runId (p :: rest) st = (none, st') := by
  rw [run_pipeline_cons, hloop]

/-- Unfolding of run_pipeline when the loop completed. -/
theorem run_pipeline_cons_ok (proc : RemotePage → Option (List Chunk)) (runId : String)
    (p : RemotePage) (rest : List RemotePage) (st : State) (stats : Stats) (st' : State)
    (hloop : processPages proc runId (p :: rest) Stats.init st = (some stats, st')) :
    run_pipeline proc runId (p :: rest) st =
      (some { status := "success", message := none,
              new_pages_count := stats.newCount, new_pages_titles := stats.newTitles,
              updated_pages_count := stats.updCount, updated_pages_titles := stats.updTitles,
              deleted_pages_count := ((st'.get_all_page_ids.dedup).filter
                (fun i => i ∉ (p :: rest).map (fun q => q.id))).length,
              deleted_pages_ids := (st'.get_all_page_ids.dedup).filter
                (fun i => i ∉ (p :: rest).map (fun q => q.id)),
              skipped_pages_count := stats.skipped },
        sweepDeleted runId
          ((st'.get_all_page_ids.dedup).filter (fun i => i ∉ (p :: rest).map (fun q => q.id)))
          st') := by
  rw [run_pipeline_cons, hloop]

/-! Claim theorems. -/

/-- Claim C6: whenever the remote fetch returns an empty page set,
run_pipeline returns without error a report whose status is success, whose
message field is non-null, and whose new/updated/deleted/skipped counts
are all zero, and it performs no store writes and no deletion sweep: the
state comes back unchanged. -/
theorem run_pipeline_empty_fetch_report (proc : RemotePage → Option (List Chunk))
    (runId : String) (st : State) :
    run_pipeline proc runId [] st = (some emptyFetchReport, st) ∧
    emptyFetchReport.status = "success" ∧
    emptyFetchReport.message.isSome = true ∧
    emptyFetchReport.new_pages_count = 0 ∧
    emptyFetchReport.updated_pages_count = 0 ∧
    emptyFetchReport.deleted_pages_count = 0 ∧
    emptyFetchReport.skipped_pages_count = 0 :=
  ⟨rfl, rfl, rfl, rfl, rfl, rfl, rfl⟩

/-- Claim C5: a remote page whose metadata record exists and whose remote
timestamp is not strictly greater than the stored one (in particular,
equal to it) is classified SKIPPED by the per-page loop of run_pipeline:
only the skipped counter changes, the state is untouched (no vector
delete, no metadata write), and this holds for every content pipeline,
which therefore is never invoked; the UPDATED branch runs only on a
strictly greater remote timestamp. -/
theorem processPages_not_newer_skipped (proc : RemotePage → Option (List Chunk))
    (runId : String) (p : RemotePage) (rest : List RemotePage) (stats : Stats) (st : State)
    (t : Int) (hl : st.get_page_last_modified p.id = some t) (hle : p.lastModified ≤ t) :
    processPages proc runId (p :: rest) stats st =
      processPages proc runId rest { stats with skipped := stats.skipped + 1 } st :=
  processPages_cons_skip proc runId p rest stats st t hl (by omega)

/-- Witness for C5: a page whose remote timestamp 5 equals the stored 5 is
skipped even under an always-raising pipeline. -/
theorem processPages_not_newer_skipped_witness :
    processPages procFail "r" [pSkip] Stats.init stSkip =
      processPages procFail "r" [] { Stats.init with skipped := Stats.init.skipped + 1 } stSkip :=
  processPages_not_newer_skipped procFail "r" pSkip [] Stats.init stSkip 5 rfl (by decide)

/-- Claim C1 counterexample: for a stored page with a newer remote
timestamp whose processing raises, run_pipeline returns no report (the run
aborts instead of catching the failure per page) and the page's previously
stored vectors have been deleted rather than left as they were. -/
theorem run_pipeline_page_failure_not_caught_cex :
    (run_pipeline procFail "r" [pUpd] stUpd).1 = none ∧
    (run_pipeline procFail "r" [pUpd] stUpd).2.vectors = [] ∧
    stUpd.vectors = [cOld] :=
  ⟨rfl, rfl, rfl⟩

/-- Claim C1 as amended: a per-page processing failure is not caught
anywhere in run_pipeline. For an already-stored page whose remote
timestamp is newer and whose processing raises, the run aborts with no
report, and the state at the abort carries the UPDATED sync-log entry and
has the page's previous vectors already deleted, while its metadata still
holds the stale timestamp. -/
theorem run_pipeline_page_failure_aborts (proc : RemotePage → Option (List Chunk))
    (runId : String) (p : RemotePage) (rest : List RemotePage) (st : State) (t : Int)
    (hp : proc p = none) (hl : st.get_page_last_modified p.id = some t)
    (ht : p.lastModified > t) :
    run_pipeline proc runId (p :: rest) st =
      (none, (st.insert_sync_log runId p.id "UPDATED").delete_vectors_by_page_id p.id) :=
  run_pipeline_cons_fail proc runId p rest st _
    (processPages_cons_upd_fail proc runId p rest Stats.init st t hl ht hp)

/-- Witness for the amended C1 at a concrete input. -/
theorem run_pipeline_page_failure_aborts_witness :
    run_pipeline procFail "r" [pUpd] stUpd =
      (none, (stUpd.insert_sync_log "r" "p1" "UPDATED").delete_vectors_by_page_id "p1") :=
  run_pipeline_page_failure_aborts procFail "r" pUpd [] stUpd 5 rfl rfl (by decide)

/-- Claim C2 counterexample: when the fetch returns the empty set, a page
id stored before the run and absent from the (empty) remote set is neither
removed from the metadata store nor reported in deleted_pages_ids: the
early return skips the deletion sweep entirely. -/
theorem deletion_detection_empty_fetch_cex :
    lookupMeta "X" stX.meta = some mX ∧
    (run_pipeline procFail "r" [] stX).1 = some emptyFetchReport ∧
    (run_pipeline procFail "r" [] stX).2.meta = [("X", mX)] ∧
    emptyFetchReport.deleted_pages_ids = [] :=
  ⟨rfl, rfl, rfl, rfl⟩

/-- Claim C2 as amended: provided the fetched remote set is non-empty and
the run completes with a report, every page id holding a metadata record
before the run and absent from the remote set is, after the run, absent
from the metadata store and the vector store, and appears in the report's
deleted_pages_ids, whose length is deleted_pages_count. -/
theorem run_pipeline_deletion_detection (proc : RemotePage → Option (List Chunk))
    (runId : String) (p : RemotePage) (rest : List RemotePage) (st : State) (rpt : Report)
    (stf : State) (pid : String) (m : PageMeta)
    (hm : lookupMeta pid st.meta = some m)
    (hnot : pid ∉ (p :: rest).map (fun q => q.id))
    (h : run_pipeline proc runId (p :: rest) st = (some rpt, stf)) :
    lookupMeta pid stf.meta = none ∧
    stf.vectors.filter (fun c => c.page_id = pid) = [] ∧
    pid ∈ rpt.deleted_pages_ids ∧
    rpt.deleted_pages_count = rpt.deleted_pages_ids.length := by
  cases hloop : processPages proc runId (p :: rest) Stats.init st with
  | mk o st' =>
    cases o with
    | none =>
      rw [run_pipeline_cons_fail proc runId p rest st st' hloop] at h
      simp at h
    | some stats =>
      rw [run_pipeline_cons_ok proc runId p rest st stats st' hloop] at h
      cases h
      have hlk : lookupMeta pid st'.meta = some m := by
        rw [processPages_lookup_not_mem proc runId pid _ _ _ _ _ hloop hnot]
        exact hm
      have hdmem : pid ∈ (st'.get_all_page_ids.dedup).filter
          (fun i => i ∉ (p :: rest).map (fun q => q.id)) := by
        apply List.mem_filter.mpr
        refine ⟨List.mem_dedup.mpr (lookupMeta_some_mem pid _ m hlk), ?_⟩
        simpa using hnot
      exact ⟨sweepDeleted_lookup_mem runId pid _ _ hdmem,
        sweepDeleted_vec_mem runId pid _ _ hdmem, hdmem, rfl⟩

/-- Witness for the amended C2: page X, stored but absent from the
non-empty remote set, is purged from both stores and reported deleted. -/
theorem run_pipeline_deletion_detection_witness :
    lookupMeta "X" (run_pipeline procEmpty "r" [pNew] stX).2.meta = none ∧
    (run_pipeline procEmpty "r" [pNew] stX).2.vectors.filter (fun c => c.page_id = "X") = [] ∧
    "X" ∈ rptX.deleted_pages_ids ∧
    rptX.deleted_pages_count = rptX.deleted_pages_ids.length := by
  have h := run_pipeline_deletion_detection procEmpty "r" pNew [] stX rptX
    (run_pipeline procEmpty "r" [pNew] stX).2 "X" mX rfl (by decide) rfl
  exact h

/-- Claim C3 counterexample: a new page whose pipeline output contains
zero successfully embedded chunks still gets a metadata record created,
while the vector store stays empty. -/
theorem metadata_without_vectors_cex :
    procEmpty pNew = some [] ∧
    (run_pipeline procEmpty "r" [pNew] stEmpty).1 = some rptNew ∧
    lookupMeta "n1" (run_pipeline procEmpty "r" [pNew] stEmpty).2.meta = some ⟨7, "N", "Sec"⟩ ∧
    (run_pipeline procEmpty "r" [pNew] stEmpty).2.vectors = [] :=
  ⟨rfl, rfl, rfl, rfl⟩

/-- Claim C3 as amended: run_pipeline upserts the metadata record of every
processed new page regardless of whether any chunk was embedded, so after
a completed run a record exists even for a page whose pipeline output
contained zero chunks; the only-if direction of the claimed invariant does
not hold. -/
theorem run_pipeline_upserts_zero_chunk_page (proc : RemotePage → Option (List Chunk))
    (runId : String) (p : RemotePage) (rest : List RemotePage) (st : State) (rpt : Report)
    (stf : State) (hp : proc p = some []) (hl : st.get_page_last_modified p.id = none)
    (h : run_pipeline proc runId (p :: rest) st = (some rpt, stf)) :
    lookupMeta p.id stf.meta ≠ none := by
  cases hloop : processPages proc runId (p :: rest) Stats.init st with
  | mk o st' =>
    cases o with
    | none =>
      rw [run_pipeline_cons_fail proc runId p rest st st' hloop] at h
      simp at h
    | some stats =>
      rw [run_pipeline_cons_ok proc runId p rest st stats st' hloop] at h
      cases h
      have hpnot : p.id ∉ (st'.get_all_page_ids.dedup).filter
          (fun i => i ∉ (p :: rest).map (fun q => q.id)) := by
        intro hmem
        have h2 := (List.mem_filter.mp hmem).2
        simp at h2
      rw [sweepDeleted_lookup_not_mem runId p.id _ st' hpnot]
      rw [processPages_cons_new proc runId p rest Stats.init st [] hl hp] at hloop
      have hm' : lookupMeta p.id
          ((((st.insert_sync_log runId p.id "CREATED").delete_vectors_by_page_id
            p.id).insert_chunks []).upsert_page_metadata
            p.id p.lastModified p.title p.sectionDisplayName).meta =
          some ⟨p.lastModified, p.title, p.sectionDisplayName⟩ := by
        rw [meta_upsert, meta_insert_chunks, meta_delete_vectors, meta_insert_sync_log]
        exact lookupMeta_upsertMeta_self _ _ _
      obtain ⟨m', hsome, -⟩ := processPages_lookup_mono proc runId p.id rest _ _ _ _ _ hloop hm'
      rw [hsome]
      simp

/-- Witness for the amended C3 at a concrete input. -/
theorem run_pipeline_upserts_zero_chunk_page_witness :
    lookupMeta "n1" stNew.meta ≠ none :=
  run_pipeline_upserts_zero_chunk_page procEmpty "r" pNew [] stEmpty rptNew stNew rfl rfl rfl

/-- Claim C10: every report run_pipeline returns is internally consistent:
new_pages_count, updated_pages_count and deleted_pages_count equal the
lengths of new_pages_titles, updated_pages_titles and deleted_pages_ids. -/
theorem run_pipeline_report_counts_consistent (proc : RemotePage → Option (List Chunk))
    (runId : String) (pages : List RemotePage) (st : State) (rpt : Report) (stf : State)
    (h : run_pipeline proc runId pages st = (some rpt, stf)) :
    rpt.new_pages_count = rpt.new_pages_titles.length ∧
    rpt.updated_pages_count = rpt.updated_pages_titles.length ∧
    rpt.deleted_pages_count = rpt.deleted_pages_ids.length := by
  cases pages with
  | nil =>
    have h0 : (some emptyFetchReport, st) = (some rpt, stf) := h
    cases h0
    exact ⟨rfl, rfl, rfl⟩
  | cons p rest =>
    cases hloop : processPages proc runId (p :: rest) Stats.init st with
    | mk o st' =>
      cases o with
      | none =>
        rw [run_pipeline_cons_fail proc runId p rest st st' hloop] at h
        simp at h
      | some stats =>
        rw [run_pipeline_cons_ok proc runId p rest st stats st' hloop] at h
        cases h
        obtain ⟨h1, h2⟩ := processPages_stats_ok proc runId _ _ _ _ _ hloop rfl rfl
        exact ⟨h1, h2, rfl⟩

/-- Witness for C10 at a concrete run. -/
theorem run_pipeline_report_counts_consistent_witness :
    rptNew.new_pages_count = rptNew.new_pages_titles.length ∧
    rptNew.updated_pages_count = rptNew.updated_pages_titles.length ∧
    rptNew.deleted_pages_count = rptNew.deleted_pages_ids.length :=
  run_pipeline_report_counts_consistent procEmpty "r" [pNew] stEmpty rptNew stNew rfl

/-- A run over a store whose every page is already stored at a timestamp
at least the remote one, and whose stored ids all are remote, reports
nothing but skips. -/
theorem run_pipeline_second_run (proc₂ : RemotePage → Option (List Chunk)) (runId₂ : String)
    (pages : List RemotePage) (stf : State)
    (hall : ∀ q ∈ pages, ∃ t, stf.get_page_last_modified q.id = some t ∧ q.lastModified ≤ t)
    (hkeys : ∀ pid, pid ∈ stf.get_all_page_ids → pid ∈ pages.map (fun q => q.id)) :
    ∃ rpt₂ st₂, run_pipeline proc₂ runId₂ pages stf = (some rpt₂, st₂) ∧
      rpt₂.new_pages_count = 0 ∧ rpt₂.updated_pages_count = 0 ∧
      rpt₂.deleted_pages_count = 0 ∧ rpt₂.skipped_pages_count = pages.length := by
  cases pages with
  | nil => exact ⟨emptyFetchReport, stf, rfl, rfl, rfl, rfl, rfl⟩
  | cons p rest =>
    have hstep := processPages_all_skip proc₂ runId₂ (p :: rest) Stats.init stf hall
    rw [run_pipeline_cons_ok proc₂ runId₂ p rest stf _ stf hstep]
    have hdl : (stf.get_all_page_ids.dedup).filter
        (fun i => i ∉ (p :: rest).map (fun q => q.id)) = [] := by
      rw [List.filter_eq_nil_iff]
      intro a ha
      intro hdec
      simp only [decide_eq_true_eq] at hdec
      exact hdec (hkeys a (List.mem_dedup.mp ha))
    refine ⟨_, _, rfl, rfl, rfl, ?_, ?_⟩
    · show ((stf.get_all_page_ids.dedup).filter
          (fun i => i ∉ (p :: rest).map (fun q => q.id))).length = 0
      rw [hdl]
      rfl
    · show Stats.init.skipped + (p :: rest).length = (p :: rest).length
      exact Nat.zero_add _

/-- Claim C4: for every remote page set R and store state, if a run of
run_pipeline over R completes with a report, then a second run with R
unchanged yields a report with new, updated and deleted counts all zero
and a skipped count equal to the number of pages of R. -/
theorem run_pipeline_idempotent (proc proc₂ : RemotePage → Option (List Chunk))
    (runId runId₂ : String) (R : List RemotePage) (st : State) (rpt₁ : Report) (st₁ : State)
    (h : run_pipeline proc runId R st = (some rpt₁, st₁)) :
    ∃ rpt₂ st₂, run_pipeline proc₂ runId₂ R st₁ = (some rpt₂, st₂) ∧
      rpt₂.new_pages_count = 0 ∧ rpt₂.updated_pages_count = 0 ∧
      rpt₂.deleted_pages_count = 0 ∧ rpt₂.skipped_pages_count = R.length := by
  cases R with
  | nil =>
    have h0 : (some emptyFetchReport, st) = (some rpt₁, st₁) := h
    cases h0
    exact ⟨emptyFetchReport, st, rfl, rfl, rfl, rfl, rfl⟩
  | cons p rest =>
    cases hloop : processPages proc runId (p :: rest) Stats.init st with
    | mk o st' =>
      cases o with
      | none =>
        rw [run_pipeline_cons_fail proc runId p rest st st' hloop] at h
        simp at h
      | some stats =>
        rw [run_pipeline_cons_ok proc runId p rest st stats st' hloop] at h
        cases h
        have hall : ∀ q ∈ (p :: rest), ∃ t,
            (sweepDeleted runId
              ((st'.get_all_page_ids.dedup).filter
                (fun i => i ∉ (p :: rest).map (fun q => q.id))) st').get_page_last_modified
              q.id = some t ∧ q.lastModified ≤ t := by
          intro q hq
          obtain ⟨m', hm', hle⟩ := processPages_lookup_of_mem proc runId _ _ _ _ _ q hloop hq
          have hqnot : q.id ∉ (st'.get_all_page_ids.dedup).filter
              (fun i => i ∉ (p :: rest).map (fun q => q.id)) := by
            intro hmem
            have h2 := (List.mem_filter.mp hmem).2
            simp only [decide_eq_true_eq] at h2
            exact h2 (List.mem_map_of_mem (fun q => q.id) hq)
          refine ⟨m'.last_modified, ?_, hle⟩
          rw [get_last_modified_eq, sweepDeleted_lookup_not_mem runId q.id _ st' hqnot, hm']
          rfl
        have hkeys : ∀ pid, pid ∈ (sweepDeleted runId
            ((st'.get_all_page_ids.dedup).filter
              (fun i => i ∉ (p :: rest).map (fun q => q.id))) st').get_all_page_ids →
            pid ∈ (p :: rest).map (fun q => q.id) := by
          intro pid hmem
          by_contra hnot
          have hne := lookupMeta_ne_none_of_mem pid _ hmem
          cases hlk : lookupMeta pid st'.meta with
          | none => exact hne (sweepDeleted_lookup_none runId pid _ _ hlk)
          | some ma =>
            have hdm : pid ∈ (st'.get_all_page_ids.dedup).filter
                (fun i => i ∉ (p :: rest).map (fun q => q.id)) :=
              List.mem_filter.mpr
                ⟨List.mem_dedup.mpr (lookupMeta_some_mem pid _ ma hlk), by simpa using hnot⟩
            exact hne (sweepDeleted_lookup_mem runId pid _ _ hdm)
        exact run_pipeline_second_run proc₂ runId₂ (p :: rest) _ hall hkeys

/-- Witness for C4: a second run over [pNew] from the state the first run
produced reports one skipped page and nothing else. -/
theorem run_pipeline_idempotent_witness :
    ∃ rpt₂ st₂, run_pipeline procEmpty "r2" [pNew] stNew = (some rpt₂, st₂) ∧
      rpt₂.new_pages_count = 0 ∧ rpt₂.updated_pages_count = 0 ∧
      rpt₂.deleted_pages_count = 0 ∧ rpt₂.skipped_pages_count = [pNew].length :=
  run_pipeline_idempotent procEmpty procEmpty "r" "r2" [pNew] stEmpty rptNew stNew rfl

/-- Unfolding of the markdown line rendering for a table with rows. -/
theorem table_to_markdown_lines_cons (r0 : TableRow) (rest : List TableRow) :
    table_to_markdown_lines ⟨r0 :: rest⟩ =
      if r0.cells.any (fun c => c.isHeader) then
        markdownRow (r0.cells.map fun c => pyStrip c.text) ::
          markdownRow (List.replicate r0.cells.length "---") ::
            rest.map (fun r => markdownRow (r.cells.map fun c => pyStrip c.text))
      else
        markdownRow (if (r0.cells.filter fun c => ¬ c.isHeader).length = 2
            then ["Feature", "Details"]
            else (List.range (r0.cells.filter fun c => ¬ c.isHeader).length).map
              (fun i => "Column " ++ toString (i + 1))) ::
          markdownRow (List.replicate (r0.cells.filter fun c => ¬ c.isHeader).length "---") ::
            (r0 :: rest).map (fun r => markdownRow (r.cells.map fun c => pyStrip c.text)) := rfl

/-- Claim C7: for every table with at least one row whose first row holds
no th cell, the rendered header row is Feature and Details when the first
row has exactly two td cells, and Column 1 through Column N when it has N
td cells with N not two; when the first row does hold a th, that row's
cell texts are used as the headers. -/
theorem table_to_markdown_header_synthesis (t : HtmlTable) (r0 : TableRow)
    (rest : List TableRow) (hrows : t.rows = r0 :: rest) :
    ((r0.cells.any fun c => c.isHeader) = false →
      (r0.cells.filter fun c => ¬ c.isHeader).length = 2 →
      (table_to_markdown_lines t).head? = some "| Feature | Details |") ∧
    ((r0.cells.any fun c => c.isHeader) = false →
      (r0.cells.filter fun c => ¬ c.isHeader).length ≠ 2 →
      (table_to_markdown_lines t).head? =
        some (markdownRow ((List.range
          (r0.cells.filter fun c => ¬ c.isHeader).length).map
          (fun i => "Column " ++ toString (i + 1))))) ∧
    ((r0.cells.any fun c => c.isHeader) = true →
      (table_to_markdown_lines t).head? =
        some (markdownRow (r0.cells.map fun c => pyStrip c.text))) := by
  obtain ⟨rows⟩ := t
  simp only at hrows
  subst hrows
  refine ⟨?_, ?_, ?_⟩
  · intro hno h2
    rw [table_to_markdown_lines_cons]
    simp at h2
    simp [hno, h2]
    decide
  · intro hno hne
    rw [table_to_markdown_lines_cons]
    simp at hne
    simp [hno, hne]
  · intro hyes
    rw [table_to_markdown_lines_cons]
    simp [hyes]

/-- Witness for C7: a headerless three-column table renders the header
row Column 1, Column 2, Column 3. -/
theorem table_to_markdown_header_synthesis_witness :
    (table_to_markdown_lines tbl3).head? = some "| Column 1 | Column 2 | Column 3 |" := by
  have h := (table_to_markdown_header_synthesis tbl3 row3 [] rfl).2.1 (by decide) (by decide)
  rw [h]
  decide

/-- Claim C8 counterexample: a OneNote binary-resource image whose
fetch/persist/describe sequence fails is replaced by empty text; the
replacement does not contain a processing-failed marker. -/
theorem process_image_failure_marker_cex :
    process_image envFail (some imgSrc) = "" ∧
    strIn "processing failed" (process_image envFail (some imgSrc)) = false :=
  ⟨rfl, rfl⟩

/-- Claim C8 as amended: if fetching, persisting or describing a OneNote
resource image fails, process_page does not raise: the image is replaced
with empty text (not a processing-failed marker) and the extracted page
text equals that of the same page without the image, so the rest of the
page is still processed. -/
theorem process_image_failure_empty_replacement (env : Env) (src : String)
    (ns1 ns2 : List Node)
    (hres : strIn "/onenote/resources/" src = true)
    (hfail : env.image (if strIn "siteCollections" src then
      src.replace "siteCollections" "sites" else src) = ImageOutcome.fail) :
    process_image env (some src) = "" ∧
    extract_text env (ns1 ++ Node.image (some src) :: ns2) = extract_text env (ns1 ++ ns2) := by
  have hne : src ≠ "" := by
    intro he
    rw [he] at hres
    exact absurd hres (by decide)
  have himg : process_image env (some src) = "" := by
    unfold process_image
    simp only [Option.getD_some]
    rw [if_neg (not_or.mpr ⟨hne, fun hn => hn hres⟩)]
    rw [hfail]
  refine ⟨himg, ?_⟩
  have hmid : pyStrip (processNode env (Node.image (some src))) = "" := by
    simp only [processNode]
    rw [himg]
    rfl
  simp only [extract_text, List.map_append, List.map_cons, List.filter_append,
    List.filter_cons, hmid]
  simp

/-- Witness for the amended C8 at a concrete failing image. -/
theorem process_image_failure_empty_replacement_witness :
    process_image envFail (some imgSrc) = "" ∧
    extract_text envFail ([Node.text "hello"] ++ Node.image (some imgSrc) :: []) =
      extract_text envFail ([Node.text "hello"] ++ []) :=
  process_image_failure_empty_replacement envFail imgSrc [Node.text "hello"] []
    (by decide) rfl

/-- Claim C9 counterexample: a table with a non-empty markdown rendering
whose summarization call fails is replaced by empty text: the structured
table text is dropped from the page, not kept. -/
theorem process_table_summary_failure_cex :
    process_table envFail tbl2 = "" ∧
    table_to_markdown tbl2 ≠ "" ∧
    strIn (table_to_markdown tbl2) (process_table envFail tbl2) = false :=
  ⟨rfl, by decide, by decide⟩

/-- Claim C9 as amended: whenever the summarization call for a table
fails, the table's replacement text is the empty string, so the table's
content (its markdown rendering included) is dropped from the page's
extracted text. -/
theorem process_table_summary_failure_empty (env : Env) (t : HtmlTable)
    (hfail : env.summarize (table_to_markdown t) = none) :
    process_table env t = "" := by
  by_cases h : pyStrip (table_to_markdown t) = ""
  · simp [process_table, h]
  · simp [process_table, h, hfail]

/-- Witness for the amended C9 at a concrete table. -/
theorem process_table_summary_failure_empty_witness :
    process_table envFail tbl2 = "" :=
  process_table_summary_failure_empty envFail tbl2 rfl

end OneNoteSync
